import Mathlib

/-!
Verification of the featherless-podcast pipeline (notebooks
`featherless_podcast.ipynb` and `featherless_podcast2.ipynb`).

The Python code is shallowly embedded: strings are Lean `String`s
(lists of characters under the hood), the remote Featherless API, the
file system and the PDF library are oracles passed explicitly, and the
observable outcome of a Python function call (normal return vs. raised
exception) is the inductive `PyOutcome`.
-/

namespace FeatherlessPodcast

/-! ## String basics

Small bridging lemmas between `String` and its underlying `List Char`. -/

theorem sdata_append (a b : String) : (a ++ b).data = a.data ++ b.data := rfl

theorem sdata_nil : ("" : String).data = [] := rfl

theorem sext {a b : String} (h : a.data = b.data) : a = b := by
  cases a; cases b; exact congrArg String.mk h

theorem smk_data (s : String) : String.mk s.data = s := rfl

theorem slength_eq (s : String) : s.length = s.data.length := rfl

theorem sappend_assoc (a b c : String) : a ++ b ++ c = a ++ (b ++ c) :=
  sext (by rw [sdata_append, sdata_append, sdata_append, sdata_append, List.append_assoc])

theorem sappend_empty (a : String) : a ++ "" = a :=
  sext (by rw [sdata_append, sdata_nil, List.append_nil])

theorem slength_append (a b : String) : (a ++ b).length = a.length + b.length := by
  rw [slength_eq, slength_eq, slength_eq, sdata_append, List.length_append]

/-! ## Python `str.split()` (whitespace splitting)

`text.split()` splits on runs of whitespace and drops empty pieces. -/

/-- The six ASCII whitespace characters recognised by Python `str.split()`. -/
def isPyWhitespace (c : Char) : Bool :=
  c = ' ' || c = '\t' || c = '\n' || c = '\r' || c = '\x0b' || c = '\x0c'

/-- Worker for `pythonSplit`: walks the characters, accumulating the current
word; a whitespace character closes the current word (if any). -/
def splitWsAux : List Char → List Char → List (List Char)
  | [], cur => if cur = [] then [] else [cur]
  | c :: cs, cur =>
    if isPyWhitespace c then
      if cur = [] then splitWsAux cs [] else cur :: splitWsAux cs []
    else
      splitWsAux cs (cur ++ [c])

/-- `text.split()`: the whitespace-delimited words of `text`, in order. -/
def pythonSplit (s : String) : List String :=
  (splitWsAux s.data []).map String.mk

/-- Python `" ".join(words)`. -/
def space_join : List String → String
  | [] => ""
  | [w] => w
  | w :: x :: ws => w ++ " " ++ space_join (x :: ws)

/-- Whitespace-collapse: Python `" ".join(s.split())`, the standard Python
normalization collapsing whitespace runs to single spaces. -/
def collapse_whitespace (s : String) : String :=
  space_join (pythonSplit s)

/-! ## The chunker (`create_word_bounded_chunks`, featherless_podcast.ipynb)

```python
def create_word_bounded_chunks(text, target_chunk_size):
    words = text.split()
    chunks = []
    current_chunk = []
    current_length = 0
    for word in words:
        word_length = len(word) + 1  # +1 for the space
        if current_length + word_length > target_chunk_size and current_chunk:
            chunks.append(' '.join(current_chunk))
            current_chunk = [word]
            current_length = word_length
        else:
            current_chunk.append(word)
            current_length += word_length
    if current_chunk:
        chunks.append(' '.join(current_chunk))
    return chunks
```

`chunkLoop` is the `for` loop; chunks are accumulated as word lists and
joined with single spaces by the wrapper, which is observably the same as joining at
the moment each chunk is closed. -/

def chunkLoop (target_chunk_size : Nat) :
    List String → List (List String) → List String → Nat → List (List String)
  | [], chunks, current_chunk, _ =>
    if current_chunk = [] then chunks else chunks ++ [current_chunk]
  | word :: words, chunks, current_chunk, current_length =>
    let word_length := word.length + 1
    if current_length + word_length > target_chunk_size ∧ current_chunk ≠ [] then
      chunkLoop target_chunk_size words (chunks ++ [current_chunk]) [word] word_length
    else
      chunkLoop target_chunk_size words chunks (current_chunk ++ [word])
        (current_length + word_length)

/-- `create_word_bounded_chunks(text, target_chunk_size)`. -/
def create_word_bounded_chunks (text : String) (target_chunk_size : Nat) : List String :=
  (chunkLoop target_chunk_size (pythonSplit text) [] [] 0).map space_join

/-- `current_length` bookkeeping of the loop: each word counts its length
plus one for the following space. -/
def sumLen : List String → Nat
  | [] => 0
  | w :: ws => w.length + 1 + sumLen ws

/-! ## Lemmas about whitespace splitting -/

/-- Every word emitted by `splitWsAux` is nonempty and free of whitespace
characters, provided the running word is. -/
theorem splitWsAux_clean : ∀ (l cur : List Char),
    (∀ c ∈ cur, isPyWhitespace c = false) →
    ∀ w ∈ splitWsAux l cur, w ≠ [] ∧ ∀ c ∈ w, isPyWhitespace c = false := by
  intro l
  induction l with
  | nil =>
    intro cur hcur w hw
    simp only [splitWsAux] at hw
    split at hw
    · simp at hw
    · next hne =>
      simp at hw
      subst hw
      exact ⟨hne, hcur⟩
  | cons c cs ih =>
    intro cur hcur w hw
    simp only [splitWsAux] at hw
    split at hw
    · split at hw
      · exact ih [] (by simp) w hw
      · next hne =>
        rcases List.mem_cons.mp hw with h | h
        · subst h; exact ⟨hne, hcur⟩
        · exact ih [] (by simp) w h
    · next hws =>
      refine ih (cur ++ [c]) ?_ w hw
      intro a ha
      rcases List.mem_append.mp ha with h | h
      · exact hcur a h
      · simp at h; subst h
        simpa using hws

/-- Scanning a whitespace-free word just accumulates it. -/
theorem splitWsAux_word : ∀ (w rest cur : List Char),
    (∀ c ∈ w, isPyWhitespace c = false) →
    splitWsAux (w ++ rest) cur = splitWsAux rest (cur ++ w) := by
  intro w
  induction w with
  | nil => intro rest cur _; simp
  | cons c w' ih =>
    intro rest cur hw
    have hc : isPyWhitespace c = false := hw c (by simp)
    show splitWsAux (c :: (w' ++ rest)) cur = _
    simp only [splitWsAux, hc]
    rw [ih rest (cur ++ [c]) (fun a ha => hw a (by simp [ha])), List.append_assoc]
    rfl

/-- Every word of `pythonSplit s` is nonempty and whitespace-free. -/
theorem pythonSplit_clean (s : String) :
    ∀ w ∈ pythonSplit s, w.data ≠ [] ∧ ∀ c ∈ w.data, isPyWhitespace c = false := by
  intro w hw
  rcases List.mem_map.mp hw with ⟨w', hw', rfl⟩
  exact splitWsAux_clean s.data [] (by simp) w' hw'

/-- Splitting a space-join of clean words recovers exactly those words. -/
theorem pythonSplit_space_join : ∀ (ws : List String),
    (∀ w ∈ ws, w.data ≠ [] ∧ ∀ c ∈ w.data, isPyWhitespace c = false) →
    pythonSplit (space_join ws) = ws := by
  intro ws
  induction ws with
  | nil => intro _; rfl
  | cons w ws' ih =>
    intro h
    rcases h w (by simp) with ⟨hwne, hwclean⟩
    cases ws' with
    | nil =>
      show (splitWsAux (space_join [w]).data []).map String.mk = [w]
      have : (space_join [w]).data = w.data ++ [] := by
        simp [space_join]
      rw [this, splitWsAux_word w.data [] [] hwclean]
      simp only [splitWsAux, List.nil_append]
      rw [if_neg hwne]
      simp
    | cons x ws'' =>
      show (splitWsAux (space_join (w :: x :: ws'')).data []).map String.mk = w :: x :: ws''
      have hdata : (space_join (w :: x :: ws'')).data =
          w.data ++ (' ' :: (space_join (x :: ws'')).data) := by
        show (w ++ " " ++ space_join (x :: ws'')).data = _
        rw [sdata_append, sdata_append, List.append_assoc]
        rfl
      rw [hdata, splitWsAux_word w.data _ [] hwclean]
      simp only [splitWsAux, List.nil_append]
      rw [if_pos (by decide), if_neg hwne]
      have := ih (fun a ha => h a (by simp [ha]))
      show (w.data :: splitWsAux (space_join (x :: ws'')).data []).map String.mk = _
      simp only [List.map_cons, smk_data]
      exact congrArg (List.cons w) this

/-! ## Lemmas about the chunker loop -/

/-- The words of all chunks produced by the loop are exactly the pending
words, in order, behind what was already accumulated. -/
theorem chunkLoop_join (t : Nat) : ∀ (words : List String) (chunks : List (List String))
    (cur : List String) (len : Nat),
    (chunkLoop t words chunks cur len).flatten = chunks.flatten ++ cur ++ words := by
  intro words
  induction words with
  | nil =>
    intro chunks cur len
    simp only [chunkLoop]
    split
    · next h => subst h; simp
    · simp
  | cons word rest ih =>
    intro chunks cur len
    simp only [chunkLoop]
    split
    · rw [ih]; simp
    · rw [ih]; simp

theorem sumLen_append_one (l : List String) (w : String) :
    sumLen (l ++ [w]) = sumLen l + (w.length + 1) := by
  induction l with
  | nil => simp [sumLen]
  | cons x xs ih =>
    show x.length + 1 + sumLen (xs ++ [w]) = x.length + 1 + sumLen xs + (w.length + 1)
    rw [ih]
    omega

/-- Size invariant of the loop: every closed chunk is nonempty and either
fits in `target + 1` space-inclusive length units or is a single word. -/
theorem chunkLoop_inv (t : Nat) : ∀ (words : List String) (chunks : List (List String))
    (cur : List String),
    (∀ c ∈ chunks, c ≠ [] ∧ (sumLen c ≤ t + 1 ∨ ∃ w, c = [w])) →
    (cur = [] ∨ sumLen cur ≤ t + 1 ∨ ∃ w, cur = [w]) →
    ∀ c ∈ chunkLoop t words chunks cur (sumLen cur),
      c ≠ [] ∧ (sumLen c ≤ t + 1 ∨ ∃ w, c = [w]) := by
  intro words
  induction words with
  | nil =>
    intro chunks cur hchunks hcur c hc
    simp only [chunkLoop] at hc
    split at hc
    · exact hchunks c hc
    · next hne =>
      rcases List.mem_append.mp hc with h | h
      · exact hchunks c h
      · simp at h; subst h
        refine ⟨hne, ?_⟩
        rcases hcur with h | h | h
        · exact absurd h hne
        · exact Or.inl h
        · exact Or.inr h
  | cons word rest ih =>
    intro chunks cur hchunks hcur c hc
    simp only [chunkLoop] at hc
    split at hc
    · next hcond =>
      have harg : word.length + 1 = sumLen [word] := by simp [sumLen]
      rw [harg] at hc
      refine ih (chunks ++ [cur]) [word] ?_ (Or.inr (Or.inr ⟨word, rfl⟩)) c hc
      intro d hd
      rcases List.mem_append.mp hd with h | h
      · exact hchunks d h
      · simp at h; subst h
        refine ⟨hcond.2, ?_⟩
        rcases hcur with h | h | h
        · exact absurd h hcond.2
        · exact Or.inl h
        · exact Or.inr h
    · next hcond =>
      have harg : sumLen cur + (word.length + 1) = sumLen (cur ++ [word]) := by
        rw [sumLen_append_one]
      rw [harg] at hc
      refine ih chunks (cur ++ [word]) hchunks ?_ c hc
      rcases Decidable.em (cur = []) with hemp | hne
      · subst hemp
        exact Or.inr (Or.inr ⟨word, rfl⟩)
      · right; left
        have hle : sumLen cur + (word.length + 1) ≤ t := by
          by_contra hgt
          exact hcond ⟨by omega, hne⟩
        rw [sumLen_append_one]
        omega

/-- Space-inclusive length bookkeeping versus the length of the joined chunk. -/
theorem sumLen_space_join : ∀ (c : List String), c ≠ [] →
    sumLen c = (space_join c).length + 1 := by
  intro c
  induction c with
  | nil => intro h; exact absurd rfl h
  | cons w ws ih =>
    intro _
    cases ws with
    | nil => simp [sumLen, space_join]
    | cons x ws' =>
      have ihx := ih (by simp)
      show w.length + 1 + sumLen (x :: ws') = (w ++ " " ++ space_join (x :: ws')).length + 1
      rw [slength_append, slength_append, ihx]
      have h1 : (" " : String).length = 1 := rfl
      omega

theorem space_join_append : ∀ (xs ys : List String), xs ≠ [] → ys ≠ [] →
    space_join (xs ++ ys) = space_join xs ++ " " ++ space_join ys := by
  intro xs
  induction xs with
  | nil => intro ys h _; exact absurd rfl h
  | cons x xs' ih =>
    intro ys _ hys
    cases xs' with
    | nil =>
      cases ys with
      | nil => exact absurd rfl hys
      | cons y ys' => rfl
    | cons x' xs'' =>
      have hstep := ih ys (by simp) hys
      show x ++ " " ++ space_join ((x' :: xs'') ++ ys) =
        space_join (x :: x' :: xs'') ++ " " ++ space_join ys
      rw [hstep]
      rw [show space_join (x :: x' :: xs'') = x ++ " " ++ space_join (x' :: xs'') from rfl]
      simp only [sappend_assoc]

/-- Joining the per-chunk joins is joining all the words, for nonempty
chunks. -/
theorem space_join_chunks : ∀ (css : List (List String)), (∀ cs ∈ css, cs ≠ []) →
    space_join (css.map space_join) = space_join css.flatten := by
  intro css
  induction css with
  | nil => intro _; rfl
  | cons cs css' ih =>
    intro h
    cases css' with
    | nil =>
      show space_join [space_join cs] = space_join (cs ++ [].flatten)
      simp [space_join]
    | cons cs' css'' =>
      have hcs : cs ≠ [] := h cs (by simp)
      have hflat : (cs' :: css'').flatten ≠ [] := by
        have hcs' : cs' ≠ [] := h cs' (by simp)
        cases cs' with
        | nil => exact absurd rfl hcs'
        | cons a l => simp [List.flatten]
      show space_join (space_join cs :: (cs' :: css'').map space_join) =
        space_join (cs ++ (cs' :: css'').flatten)
      rw [space_join_append cs ((cs' :: css'').flatten) hcs hflat,
        ← ih (fun d hd => h d (by simp [hd]))]
      rfl

/-! ## Claims C1, C2, C6 — the chunker -/

/-- C1: for every input text and target size ≥ 1, joining the chunk texts of
`create_word_bounded_chunks` with single spaces and collapsing whitespace
reproduces the whitespace-collapsed input exactly (lossless, order-preserving
reconstruction). -/
theorem chunker_lossless_reconstruction (text : String) (target_size : Nat)
    (h : 1 ≤ target_size) :
    collapse_whitespace (space_join (create_word_bounded_chunks text target_size)) =
      collapse_whitespace text := by
  unfold create_word_bounded_chunks collapse_whitespace
  have hclean := pythonSplit_clean text
  have hne : ∀ cs ∈ chunkLoop target_size (pythonSplit text) [] [] 0, cs ≠ [] := by
    intro cs hcs
    exact (chunkLoop_inv target_size (pythonSplit text) [] [] (by simp)
      (Or.inl rfl) cs hcs).1
  rw [space_join_chunks _ hne, chunkLoop_join]
  simp only [List.flatten_nil, List.nil_append]
  rw [pythonSplit_space_join (pythonSplit text) hclean]

theorem chunker_lossless_reconstruction_witness :
    1 ≤ 5 ∧
      collapse_whitespace (space_join (create_word_bounded_chunks "hello  world again" 5)) =
        collapse_whitespace "hello  world again" :=
  ⟨by decide, chunker_lossless_reconstruction "hello  world again" 5 (by decide)⟩

/-- C2: every chunk has character length at most the target size, except a
chunk that is a single input word whose own length exceeds the target; such a
word sits alone in its chunk, unsplit. -/
theorem chunker_size_bound (text : String) (target_size : Nat) (h : 1 ≤ target_size) :
    ∀ chunk ∈ create_word_bounded_chunks text target_size,
      chunk.length ≤ target_size ∨
        ∃ w, w ∈ pythonSplit text ∧ chunk = w ∧ target_size < w.length := by
  intro chunk hchunk
  unfold create_word_bounded_chunks at hchunk
  rcases List.mem_map.mp hchunk with ⟨c, hc, rfl⟩
  have hinv := chunkLoop_inv target_size (pythonSplit text) [] [] (by simp)
    (Or.inl rfl) c hc
  rcases hinv with ⟨hcne, hbound | ⟨w, rfl⟩⟩
  · left
    have := sumLen_space_join c hcne
    omega
  · rcases le_or_lt (space_join [w]).length target_size with hle | hgt
    · exact Or.inl hle
    · right
      refine ⟨w, ?_, rfl, hgt⟩
      have hj := chunkLoop_join target_size (pythonSplit text) [] [] 0
      simp only [List.flatten_nil, List.nil_append] at hj
      rw [← hj]
      exact List.mem_flatten.mpr ⟨[w], hc, by simp⟩

theorem chunker_size_bound_witness :
    1 ≤ 5 ∧ ("extraordinary" ∈ create_word_bounded_chunks "an extraordinary day" 5) ∧
      (("extraordinary" : String).length ≤ 5 ∨
        ∃ w, w ∈ pythonSplit "an extraordinary day" ∧
          ("extraordinary" : String) = w ∧ 5 < w.length) :=
  ⟨by decide, by decide,
    chunker_size_bound "an extraordinary day" 5 (by decide) "extraordinary" (by decide)⟩

/-- C6 (counterexample): with target size 5 and input `"ab cd"`, adding
`"cd"` would give the chunk `"ab cd"` of length exactly 5, which does not
exceed the target — yet the code closes the chunk, because its test counts a
trailing space (`current_length + len(word) + 1 > target`). The output the claim
predicts, namely `["ab cd"]` is not produced. -/
theorem chunker_close_at_target_cex :
    create_word_bounded_chunks "ab cd" 5 = ["ab", "cd"] ∧
      ("ab cd" : String).length = 5 ∧ ¬(5 : Nat) < 5 ∧
      create_word_bounded_chunks "ab cd" 5 ≠ ["ab cd"] := by
  refine ⟨by decide, by decide, by decide, by decide⟩

/-- C6 (amended): whenever the current chunk is nonempty, the loop adds the
next word to it unless the joined chunk after adding would **reach or
exceed** `target_size` (the test in the code counts one trailing space per word),
and only in that case closes the chunk and starts a new one with that word. -/
theorem chunker_accumulation_step (t : Nat) (word : String) (words : List String)
    (chunks : List (List String)) (cur : List String) (cl : Nat)
    (hne : cur ≠ []) (hcl : cl = sumLen cur) :
    (t ≤ (space_join (cur ++ [word])).length →
      chunkLoop t (word :: words) chunks cur cl =
        chunkLoop t words (chunks ++ [cur]) [word] (word.length + 1)) ∧
    ((space_join (cur ++ [word])).length < t →
      chunkLoop t (word :: words) chunks cur cl =
        chunkLoop t words chunks (cur ++ [word]) (cl + (word.length + 1))) := by
  have hlen : (space_join (cur ++ [word])).length + 1 = sumLen cur + (word.length + 1) := by
    rw [← sumLen_space_join (cur ++ [word]) (by simp), sumLen_append_one]
  constructor
  · intro hreach
    simp only [chunkLoop]
    rw [if_pos ⟨by omega, hne⟩]
  · intro hlt
    simp only [chunkLoop]
    rw [if_neg ?_]
    rintro ⟨hgt, -⟩
    omega

theorem chunker_accumulation_step_witness :
    (["ab"] : List String) ≠ [] ∧ (3 : Nat) = sumLen ["ab"] ∧
      chunkLoop 5 ["cd"] [] ["ab"] 3 = chunkLoop 5 [] [["ab"]] ["cd"] 3 := by
  refine ⟨by decide, by decide, ?_⟩
  exact (chunker_accumulation_step 5 "cd" [] [] ["ab"] 3 (by decide) (by decide)).1 (by decide)

/-! ## The transform layer (`process_chunk`, `generate_podcast`)

```python
def process_chunk(text_chunk, chunk_num):
    messages = [...]
    try:
        response = requests.post(...)
        response.raise_for_status()
        processed_text = response.json()["choices"][0]["message"]["content"]
        ...
        return processed_text
    except Exception as e:
        print(f"Error processing chunk {chunk_num}: {str(e)}")
        return text_chunk  # Return original text in case of error
```

The remote call (POST + raise_for_status + JSON indexing) is an oracle
returning either the model text or the exception it raised; the
`except Exception` arm is the `Except.error` match arm. -/

/-- The failure of one remote transform call, carrying its cause (the
stringified exception: transport, authentication, rate-limit, non-2xx
status, or malformed response body). -/
structure TransformError where
  cause : String
deriving DecidableEq, Repr

/-- Observable outcome of calling a Python function: a normal return or a
raised exception (by exception description). -/
inductive PyOutcome (α : Type) where
  | returns (v : α)
  | raises (exn : String)
deriving DecidableEq, Repr

/-- Does the outcome raise an exception? -/
def raisesB {α : Type} : PyOutcome α → Bool
  | PyOutcome.returns _ => false
  | PyOutcome.raises _ => true

/-- Body of `process_chunk`: the value every execution path returns.
`api chunk_num text_chunk` is the outcome of the remote call. -/
def process_chunk_result (api : Nat → String → Except TransformError String)
    (text_chunk : String) (chunk_num : Nat) : String :=
  match api chunk_num text_chunk with
  | Except.ok processed_text => processed_text
  | Except.error _ => text_chunk

/-- `process_chunk(text_chunk, chunk_num)`: every path of the body is a
`return`, so the outcome of the call is always a normal return. -/
def process_chunk (api : Nat → String → Except TransformError String)
    (text_chunk : String) (chunk_num : Nat) : PyOutcome String :=
  PyOutcome.returns (process_chunk_result api text_chunk chunk_num)

/-- Body of `generate_podcast` (featherless_podcast2.ipynb): returns the
content from the model on success and `None` when the remote call raised. -/
def generate_podcast_result (api : String → String → Except TransformError String)
    (system_prompt input_prompt : String) : Option String :=
  match api system_prompt input_prompt with
  | Except.ok content => some content
  | Except.error _ => none

/-- `generate_podcast(system_prompt, input_prompt)`: always a normal
return (`try`/`except Exception` covers the whole body). -/
def generate_podcast (api : String → String → Except TransformError String)
    (system_prompt input_prompt : String) : PyOutcome (Option String) :=
  PyOutcome.returns (generate_podcast_result api system_prompt input_prompt)

/-! ## The chunk-processing loop (ScriptGenerator)

```python
with open(output_file, "w", encoding="utf-8") as out_file:
    for chunk_num, chunk in enumerate(tqdm(chunks, desc="Processing chunks")):
        processed_chunk = process_chunk(chunk, chunk_num)
        processed_text += processed_chunk + "\n"
        out_file.write(processed_chunk + "\n")
        out_file.flush()
```
-/

/-- The per-chunk results of the loop, in order, starting at `chunk_num`. -/
def script_results (api : Nat → String → Except TransformError String) :
    List String → Nat → List String
  | [], _ => []
  | chunk :: rest, chunk_num =>
    process_chunk_result api chunk chunk_num :: script_results api rest (chunk_num + 1)

/-- The accumulated `processed_text` of the loop from `chunk_num` on: each
iteration appends `processed_chunk + "\n"`. -/
def script_output_from (api : Nat → String → Except TransformError String) :
    List String → Nat → String
  | [], _ => ""
  | chunk :: rest, chunk_num =>
    (process_chunk_result api chunk chunk_num ++ "\n") ++
      script_output_from api rest (chunk_num + 1)

/-- The final `processed_text` (also the content written to the output
file): the loop over all chunks, numbered from 0. -/
def script_output (api : Nat → String → Except TransformError String)
    (chunks : List String) : String :=
  script_output_from api chunks 0

/-- Python `"\n"`-record reading (`str.splitlines` semantics): the segments
of a newline-terminated record stream. -/
def splitlinesAux : List Char → List Char → List (List Char)
  | [], cur => if cur = [] then [] else [cur]
  | c :: cs, cur =>
    if c = '\n' then cur :: splitlinesAux cs [] else splitlinesAux cs (cur ++ [c])

/-- The newline-separated segments of the generated script. -/
def script_segments (out : String) : List String :=
  (splitlinesAux out.data []).map String.mk

/-! ## Lemmas about the script loop and its segments -/

/-- Scanning a newline-free block of characters just accumulates it. -/
theorem splitlinesAux_word : ∀ (w rest cur : List Char), '\n' ∉ w →
    splitlinesAux (w ++ rest) cur = splitlinesAux rest (cur ++ w) := by
  intro w
  induction w with
  | nil => intro rest cur _; simp
  | cons c w' ih =>
    intro rest cur hw
    have hc : ¬c = '\n' := fun h => hw (by simp [h])
    show splitlinesAux (c :: (w' ++ rest)) cur = _
    simp only [splitlinesAux, if_neg hc]
    rw [ih rest (cur ++ [c]) (fun h => hw (by simp [h])), List.append_assoc]
    rfl

theorem script_results_length (api : Nat → String → Except TransformError String) :
    ∀ (cs : List String) (i : Nat), (script_results api cs i).length = cs.length := by
  intro cs
  induction cs with
  | nil => intro i; rfl
  | cons c rest ih =>
    intro i
    show (script_results api rest (i + 1)).length + 1 = rest.length + 1
    rw [ih]

theorem script_results_getD (api : Nat → String → Except TransformError String) :
    ∀ (cs : List String) (i k : Nat), k < cs.length →
      (script_results api cs i).getD k "" =
        process_chunk_result api (cs.getD k "") (i + k) := by
  intro cs
  induction cs with
  | nil => intro i k hk; simp at hk
  | cons c rest ih =>
    intro i k hk
    cases k with
    | zero => rfl
    | succ k' =>
      show (script_results api rest (i + 1)).getD k' "" = _
      rw [ih (i + 1) k' (by simpa using hk)]
      have he : i + 1 + k' = i + (k' + 1) := by omega
      rw [he]
      rfl

/-- If no per-chunk result contains a newline, the newline-separated
segments of the loop output are exactly the per-chunk results. -/
theorem script_segments_eq (api : Nat → String → Except TransformError String) :
    ∀ (cs : List String) (i : Nat),
      (∀ j, j < cs.length →
        '\n' ∉ (process_chunk_result api (cs.getD j "") (i + j)).data) →
      script_segments (script_output_from api cs i) = script_results api cs i := by
  intro cs
  induction cs with
  | nil => intro i _; rfl
  | cons c rest ih =>
    intro i h
    have h0 : '\n' ∉ (process_chunk_result api c i).data := by
      have := h 0 (by simp)
      simpa using this
    show (splitlinesAux ((process_chunk_result api c i ++ "\n") ++
        script_output_from api rest (i + 1)).data []).map String.mk = _
    have hdata : ((process_chunk_result api c i ++ "\n") ++
        script_output_from api rest (i + 1)).data =
        (process_chunk_result api c i).data ++
          ('\n' :: (script_output_from api rest (i + 1)).data) := by
      rw [sdata_append, sdata_append, List.append_assoc]
      rfl
    rw [hdata, splitlinesAux_word _ _ [] h0]
    simp only [splitlinesAux, List.nil_append, if_pos rfl]
    show ((process_chunk_result api c i).data ::
        splitlinesAux (script_output_from api rest (i + 1)).data []).map String.mk = _
    simp only [List.map_cons, smk_data]
    have hrest : script_segments (script_output_from api rest (i + 1)) =
        script_results api rest (i + 1) := by
      refine ih (i + 1) ?_
      intro j hj
      have := h (j + 1) (by simpa using Nat.succ_lt_succ hj)
      have he : i + (j + 1) = i + 1 + j := by omega
      rw [he] at this
      simpa using this
    exact congrArg (List.cons (process_chunk_result api c i)) hrest

/-! ## Claim C3 — single-chunk failure does not abort the document -/

/-- Did the remote call fail? -/
def is_err : Except TransformError String → Bool
  | Except.ok _ => false
  | Except.error _ => true

/-- Did the remote call succeed with newline-free output? -/
def ok_no_newline : Except TransformError String → Bool
  | Except.ok t => decide ('\n' ∉ t.data)
  | Except.error _ => false

/-- C3: if the remote call fails for exactly chunk `k` and succeeds (with
newline-free output) for all others, the loop still produces as many
newline-separated segments as there are chunks, and segment `k` is the
original untransformed chunk text — the failure does not abort the run. -/
theorem script_single_failure_graceful
    (api : Nat → String → Except TransformError String)
    (chunks : List String) (k : Nat) (hk : k < chunks.length)
    (hfail : is_err (api k (chunks.getD k "")) = true)
    (hnl : '\n' ∉ (chunks.getD k "").data)
    (hok : ∀ i, i < chunks.length → i ≠ k →
      ok_no_newline (api i (chunks.getD i "")) = true) :
    (script_segments (script_output api chunks)).length = chunks.length ∧
      (script_segments (script_output api chunks)).getD k "" = chunks.getD k "" := by
  have hres_k : process_chunk_result api (chunks.getD k "") k = chunks.getD k "" := by
    unfold process_chunk_result
    cases hcall : api k (chunks.getD k "") with
    | ok t => rw [hcall] at hfail; simp [is_err] at hfail
    | error e => rfl
  have hseg : script_segments (script_output api chunks) = script_results api chunks 0 := by
    refine script_segments_eq api chunks 0 ?_
    intro j hj
    rw [Nat.zero_add]
    by_cases hjk : j = k
    · subst hjk
      rw [hres_k]
      exact hnl
    · have hoj := hok j hj hjk
      unfold process_chunk_result
      cases hcall : api j (chunks.getD j "") with
      | ok t =>
        rw [hcall] at hoj
        simpa [ok_no_newline] using hoj
      | error e =>
        rw [hcall] at hoj
        simp [ok_no_newline] at hoj
  rw [hseg]
  refine ⟨script_results_length api chunks 0, ?_⟩
  rw [script_results_getD api chunks 0 k hk, Nat.zero_add, hres_k]

/-- A concrete remote oracle that fails at chunk 1 and succeeds elsewhere. -/
def sample_api : Nat → String → Except TransformError String :=
  fun chunk_num chunk =>
    if chunk_num = 1 then Except.error (TransformError.mk "HTTPError: 429")
    else Except.ok ("cleaned " ++ chunk)

theorem script_single_failure_graceful_witness :
    (1 < (["alpha", "beta", "gamma"] : List String).length) ∧
      is_err (sample_api 1 (["alpha", "beta", "gamma"].getD 1 "")) = true ∧
      '\n' ∉ ((["alpha", "beta", "gamma"] : List String).getD 1 "").data ∧
      (script_segments (script_output sample_api ["alpha", "beta", "gamma"])).length =
        (["alpha", "beta", "gamma"] : List String).length ∧
      (script_segments (script_output sample_api ["alpha", "beta", "gamma"])).getD 1 "" =
        (["alpha", "beta", "gamma"] : List String).getD 1 "" := by
  have h := script_single_failure_graceful sample_api ["alpha", "beta", "gamma"] 1
    (by decide) (by decide) (by decide) (by decide)
  exact ⟨by decide, by decide, by decide, h.1, h.2⟩

/-! ## Claim C4 — where failed remote calls are handled -/

/-- A remote oracle on which every call fails. -/
def failing_api : Nat → String → Except TransformError String :=
  fun _ _ => Except.error (TransformError.mk "HTTPError: 401 Unauthorized")

/-- A remote oracle for `generate_podcast` on which every call fails. -/
def failing_gp_api : String → String → Except TransformError String :=
  fun _ _ => Except.error (TransformError.mk "HTTPError: 429 Too Many Requests")

/-- C4 (counterexample): on a failing remote call neither `process_chunk`
nor `generate_podcast` fails with a `TransformError` — both catch the error
internally and return normally (the original chunk text, resp. `None`), so
the retry-or-fallback decision is **not** left to the caller. -/
theorem transform_layer_no_propagation_cex :
    raisesB (process_chunk failing_api "some chunk" 0) = false ∧
      process_chunk failing_api "some chunk" 0 = PyOutcome.returns "some chunk" ∧
      raisesB (generate_podcast failing_gp_api "sys" "doc") = false ∧
      generate_podcast failing_gp_api "sys" "doc" = PyOutcome.returns none :=
  ⟨rfl, rfl, rfl, rfl⟩

/-- C4 (amended): on any failure of the remote call (transport,
authentication, rate-limit, non-2xx — all surfacing as a raised exception,
modelled as `Except.error`), the transform layer handles the failure
itself: `process_chunk` returns the original chunk text and
`generate_podcast` returns `None`; no error propagates to the caller. -/
theorem transform_layer_internal_fallback
    (api : Nat → String → Except TransformError String)
    (gp_api : String → String → Except TransformError String)
    (text_chunk : String) (chunk_num : Nat) (sys inp : String) (e e' : TransformError)
    (h1 : api chunk_num text_chunk = Except.error e)
    (h2 : gp_api sys inp = Except.error e') :
    process_chunk api text_chunk chunk_num = PyOutcome.returns text_chunk ∧
      generate_podcast gp_api sys inp = PyOutcome.returns none := by
  constructor
  · show PyOutcome.returns (process_chunk_result api text_chunk chunk_num) = _
    unfold process_chunk_result
    rw [h1]
  · show PyOutcome.returns (generate_podcast_result gp_api sys inp) = _
    unfold generate_podcast_result
    rw [h2]

theorem transform_layer_internal_fallback_witness :
    failing_api 0 "some chunk" =
        Except.error (TransformError.mk "HTTPError: 401 Unauthorized") ∧
      process_chunk failing_api "some chunk" 0 = PyOutcome.returns "some chunk" ∧
      generate_podcast failing_gp_api "sys" "doc" = PyOutcome.returns none := by
  have h := transform_layer_internal_fallback failing_api failing_gp_api
    "some chunk" 0 "sys" "doc"
    (TransformError.mk "HTTPError: 401 Unauthorized")
    (TransformError.mk "HTTPError: 429 Too Many Requests") rfl rfl
  exact ⟨rfl, h.1, h.2⟩

/-! ## Claim C5 — shape of the generated script -/

/-- The output shape asserted by the claim (the spec's words): the ordered
concatenation of per-chunk results with each pair of consecutive results
separated by exactly one newline. -/
def newline_intercalate : List String → String
  | [] => ""
  | [x] => x
  | x :: y :: xs => x ++ "\n" ++ newline_intercalate (y :: xs)

/-- C5 (counterexample): for a single chunk the loop produces
`"Cleaned\n"`, not the bare concatenation `"Cleaned"` — every chunk result,
the last included, is followed by a newline, so the output is not exactly
the newline-intercalation the claim states. -/
theorem script_output_trailing_newline_cex :
    script_output (fun _ _ => Except.ok "Cleaned") ["alpha"] = "Cleaned\n" ∧
      newline_intercalate
          (script_results (fun _ _ => Except.ok "Cleaned") ["alpha"] 0) = "Cleaned" ∧
      ("Cleaned\n" : String) ≠ "Cleaned" := by
  refine ⟨rfl, rfl, by decide⟩

theorem script_output_from_eq (api : Nat → String → Except TransformError String) :
    ∀ (cs : List String) (i : Nat), cs ≠ [] →
      script_output_from api cs i =
        newline_intercalate (script_results api cs i) ++ "\n" := by
  intro cs
  induction cs with
  | nil => intro i h; exact absurd rfl h
  | cons c rest ih =>
    intro i _
    cases rest with
    | nil =>
      show (process_chunk_result api c i ++ "\n") ++ "" =
        newline_intercalate [process_chunk_result api c i] ++ "\n"
      rw [sappend_empty]
      rfl
    | cons c' rest' =>
      show (process_chunk_result api c i ++ "\n") ++
          script_output_from api (c' :: rest') (i + 1) = _
      rw [ih (i + 1) (by simp)]
      show _ = ((process_chunk_result api c i ++ "\n") ++
        newline_intercalate (script_results api (c' :: rest') (i + 1))) ++ "\n"
      simp only [sappend_assoc]

/-- C5 (amended): for every nonempty chunk sequence, the output is the
ordered newline-intercalation of the per-chunk results followed by one
trailing newline — consecutive results are separated by exactly one
newline, and the output ends with a newline after the last result. -/
theorem script_output_newline_separated
    (api : Nat → String → Except TransformError String)
    (chunks : List String) (hne : chunks ≠ []) :
    script_output api chunks =
      newline_intercalate (script_results api chunks 0) ++ "\n" :=
  script_output_from_eq api chunks 0 hne

theorem script_output_newline_separated_witness :
    (["alpha", "beta"] : List String) ≠ [] ∧
      script_output (fun _ c => Except.ok c) ["alpha", "beta"] =
        newline_intercalate (script_results (fun _ c => Except.ok c) ["alpha", "beta"] 0) ++ "\n" :=
  ⟨by decide, script_output_newline_separated (fun _ c => Except.ok c) ["alpha", "beta"] (by decide)⟩

/-! ## Claim C10 — totality of `process_chunk` -/

/-- C10: `process_chunk` never raises: it always returns normally, with the
text generated by the remote model on success and the original chunk text
unchanged on any failure of the remote call. -/
theorem process_chunk_total (api : Nat → String → Except TransformError String)
    (text_chunk : String) (chunk_num : Nat) :
    raisesB (process_chunk api text_chunk chunk_num) = false ∧
      (∀ t, api chunk_num text_chunk = Except.ok t →
        process_chunk api text_chunk chunk_num = PyOutcome.returns t) ∧
      (∀ e, api chunk_num text_chunk = Except.error e →
        process_chunk api text_chunk chunk_num = PyOutcome.returns text_chunk) := by
  refine ⟨rfl, ?_, ?_⟩
  · intro t ht
    show PyOutcome.returns (process_chunk_result api text_chunk chunk_num) = _
    unfold process_chunk_result
    rw [ht]
  · intro e he
    show PyOutcome.returns (process_chunk_result api text_chunk chunk_num) = _
    unfold process_chunk_result
    rw [he]

theorem process_chunk_total_witness :
    raisesB (process_chunk (fun _ c => Except.ok ("x " ++ c)) "body" 2) = false ∧
      process_chunk (fun _ c => Except.ok ("x " ++ c)) "body" 2 =
        PyOutcome.returns "x body" ∧
      process_chunk failing_api "body" 2 = PyOutcome.returns "body" := by
  have h1 := process_chunk_total (fun _ c => Except.ok ("x " ++ c)) "body" 2
  have h2 := process_chunk_total failing_api "body" 2
  exact ⟨h1.1, h1.2.1 "x body" rfl,
    h2.2.2 (TransformError.mk "HTTPError: 401 Unauthorized") rfl⟩

/-! ## PDF extraction (`validate_pdf`, `extract_text_from_pdf`)

```python
def validate_pdf(file_path: str) -> bool:
    if not os.path.exists(file_path):
        print(f"Error: File not found at path: {file_path}")
        return False
    if not file_path.lower().endswith(".pdf"):
        print("Error: File is not a PDF")
        return False
    return True

def extract_text_from_pdf(file_path: str, max_chars: int = 60000) -> Optional[str]:
    if not validate_pdf(file_path):
        return None
    try:
        markdown_text = pymupdf4llm.to_markdown(file_path)
        if len(markdown_text) > max_chars:
            markdown_text = markdown_text[:max_chars]
        return markdown_text
    except Exception as e:
        print(f"An unexpected error occurred: {str(e)}")
        return None
```

The file system and the PDF library are oracles; `to_markdown` either
returns markdown text or raises (missing file race, corrupt document, ...),
modelled as `Except` with the exception description. In the notebook
`max_chars` defaults to 60000. -/

/-- File-system oracle: `os.path.exists`. -/
structure FileSystem where
  path_exists : String → Bool

/-- PDF-library oracle: `pymupdf4llm.to_markdown`, which returns markdown
text or raises on a corrupt or unreadable document. -/
structure PdfLibrary where
  to_markdown : String → Except String String

/-- Python `str.lower()`, character by character. -/
def lower (s : String) : String :=
  String.mk (s.data.map Char.toLower)

/-- Embedding of `validate_pdf`; the suffix test is
`file_path.lower().endswith(".pdf")`. -/
def validate_pdf (fs : FileSystem) (file_path : String) : Bool :=
  if fs.path_exists file_path = false then false
  else if (".pdf".data.isSuffixOf (lower file_path).data) = false then false
  else true

/-- Body of `extract_text_from_pdf`: every execution path returns;
truncation is `markdown_text[:max_chars]`. -/
def extract_text_from_pdf_result (fs : FileSystem) (pdf : PdfLibrary)
    (file_path : String) (max_chars : Nat) : Option String :=
  if validate_pdf fs file_path = false then none
  else
    match pdf.to_markdown file_path with
    | Except.ok markdown_text =>
      some (if max_chars < markdown_text.length
        then String.mk (markdown_text.data.take max_chars)
        else markdown_text)
    | Except.error _ => none

/-- Call outcome of `extract_text_from_pdf`: always a normal return — the
invalid-path branches `return None` and the `try` body is covered by
`except Exception`. -/
def extract_text_from_pdf (fs : FileSystem) (pdf : PdfLibrary)
    (file_path : String) (max_chars : Nat) : PyOutcome (Option String) :=
  PyOutcome.returns (extract_text_from_pdf_result fs pdf file_path max_chars)

/-! ## Claim C8 — how extraction failure is signalled -/

/-- C8 (counterexample): for a missing path the extraction call returns
`None` normally; it does not fail with an `ExtractionError` (nor any other
exception). -/
theorem extract_returns_none_cex :
    extract_text_from_pdf (FileSystem.mk (fun _ => false))
        (PdfLibrary.mk (fun _ => Except.ok "text")) "paper.pdf" 60000 =
      PyOutcome.returns none ∧
      raisesB (extract_text_from_pdf (FileSystem.mk (fun _ => false))
        (PdfLibrary.mk (fun _ => Except.ok "text")) "paper.pdf" 60000) = false :=
  ⟨rfl, rfl⟩

/-- C8 (amended): for a missing path, a path not ending in `.pdf`, or a
document on which the PDF library raises (corrupt input), extraction
returns `None`; no exception — in particular no `ExtractionError` — reaches
the caller. -/
theorem extract_failure_returns_none (fs : FileSystem) (pdf : PdfLibrary)
    (file_path : String) (max_chars : Nat) :
    raisesB (extract_text_from_pdf fs pdf file_path max_chars) = false ∧
      (fs.path_exists file_path = false →
        extract_text_from_pdf fs pdf file_path max_chars = PyOutcome.returns none) ∧
      ((".pdf".data.isSuffixOf (lower file_path).data) = false →
        extract_text_from_pdf fs pdf file_path max_chars = PyOutcome.returns none) ∧
      (∀ e, pdf.to_markdown file_path = Except.error e →
        extract_text_from_pdf fs pdf file_path max_chars = PyOutcome.returns none) := by
  refine ⟨rfl, ?_, ?_, ?_⟩
  · intro h
    show PyOutcome.returns (extract_text_from_pdf_result fs pdf file_path max_chars) = _
    unfold extract_text_from_pdf_result validate_pdf
    rw [h]
    simp
  · intro h
    show PyOutcome.returns (extract_text_from_pdf_result fs pdf file_path max_chars) = _
    unfold extract_text_from_pdf_result validate_pdf
    rw [h]
    cases hfs : fs.path_exists file_path <;> simp
  · intro e he
    show PyOutcome.returns (extract_text_from_pdf_result fs pdf file_path max_chars) = _
    unfold extract_text_from_pdf_result
    cases hval : validate_pdf fs file_path <;> simp [he]

theorem extract_failure_returns_none_witness :
    ((FileSystem.mk (fun _ => false)).path_exists "notes.pdf" = false) ∧
      extract_text_from_pdf (FileSystem.mk (fun _ => false))
        (PdfLibrary.mk (fun _ => Except.ok "text")) "notes.pdf" 60000 =
        PyOutcome.returns none :=
  ⟨rfl, (extract_failure_returns_none (FileSystem.mk (fun _ => false))
    (PdfLibrary.mk (fun _ => Except.ok "text")) "notes.pdf" 60000).2.1 rfl⟩

/-! ## Claim C9 — truncation to `max_chars` -/

/-- C9: whenever `extract_text_from_pdf` returns text, the text has length
at most `max_chars` (60000 by default in the notebook); longer extracted
markdown is silently truncated to its first `max_chars` characters. -/
theorem extract_truncates_to_max_chars (fs : FileSystem) (pdf : PdfLibrary)
    (file_path : String) (max_chars : Nat) :
    (∀ t, extract_text_from_pdf_result fs pdf file_path max_chars = some t →
      t.length ≤ max_chars) ∧
    (∀ md, pdf.to_markdown file_path = Except.ok md → max_chars < md.length →
      validate_pdf fs file_path = true →
      extract_text_from_pdf_result fs pdf file_path max_chars =
        some (String.mk (md.data.take max_chars))) := by
  constructor
  · intro t ht
    unfold extract_text_from_pdf_result at ht
    cases hval : validate_pdf fs file_path with
    | false => rw [hval] at ht; simp at ht
    | true =>
      rw [hval] at ht
      rw [if_neg (by simp)] at ht
      cases hcall : pdf.to_markdown file_path with
      | error e => rw [hcall] at ht; simp at ht
      | ok md =>
        rw [hcall] at ht
        have ht2 : some (if max_chars < md.length
            then String.mk (md.data.take max_chars) else md) = some t := ht
        rcases Decidable.em (max_chars < md.length) with hlt | hge
        · rw [if_pos hlt] at ht2
          have ht' : String.mk (md.data.take max_chars) = t := by simpa using ht2
          rw [← ht']
          show (md.data.take max_chars).length ≤ max_chars
          rw [List.length_take]
          exact Nat.min_le_left _ _
        · rw [if_neg hge] at ht2
          have ht' : md = t := by simpa using ht2
          rw [← ht']
          exact Nat.le_of_not_lt hge
  · intro md hcall hlt hval
    unfold extract_text_from_pdf_result
    rw [hval]
    simp [hcall, if_pos hlt]

theorem extract_truncates_to_max_chars_witness :
    extract_text_from_pdf_result (FileSystem.mk (fun _ => true))
        (PdfLibrary.mk (fun _ => Except.ok "abcdefgh")) "paper.pdf" 5 = some "abcde" ∧
      ("abcde" : String).length ≤ 5 := by
  have h := extract_truncates_to_max_chars (FileSystem.mk (fun _ => true))
    (PdfLibrary.mk (fun _ => Except.ok "abcdefgh")) "paper.pdf" 5
  have h2 := h.2 "abcdefgh" rfl (by decide) (by decide)
  have he : extract_text_from_pdf_result (FileSystem.mk (fun _ => true))
      (PdfLibrary.mk (fun _ => Except.ok "abcdefgh")) "paper.pdf" 5 = some "abcde" := by
    rw [h2]
    rfl
  exact ⟨he, h.1 "abcde" he⟩

/-! ## Claim C7 — DialogueCompiler validation (modelled from the spec)

The dialogue-compile step lives in `featherless_podcast3.ipynb`, which is
not among the sources here; only its upstream producer (`generate_podcast`,
whose system prompt fixes the two labels `"Speaker 1"` and `"Speaker 2"`)
is. The validation step is therefore modelled from the spec. -/

/-- A validated dialogue turn. -/
structure Turn where
  speaker : String
  text : String
  sequence : Nat
deriving DecidableEq, Repr

/-- The exactly two canonical speaker labels (as fixed by the system prompt
of `generate_podcast`). -/
def canonical_labels : List String := ["Speaker 1", "Speaker 2"]

/-- Modelled from the spec: case-insensitive match of a raw speaker label
against the two canonical labels; unknown labels yield `none` — rejected,
not coerced. -/
def match_label (raw : String) : Option String :=
  canonical_labels.find? (fun canon => lower raw == lower canon)

/-- Modelled from the spec: the validation filter of the DialogueCompiler —
keep a parsed (label, utterance) pair only if the label case-insensitively
matches a canonical label (storing the canonical form) and the utterance is
nonempty. -/
def valid_pairs (raw : List (String × String)) : List (String × String) :=
  raw.filterMap (fun p =>
    match match_label p.1 with
    | some canon => if p.2 = "" then none else some (canon, p.2)
    | none => none)

/-- Modelled from the spec: renumbering the surviving turns to a gapless
0-based sequence. -/
def renumber : Nat → List (String × String) → List Turn
  | _, [] => []
  | i, p :: ps => Turn.mk p.1 p.2 i :: renumber (i + 1) ps

/-- Modelled from the spec: the Turn sequence the DialogueCompiler returns
after parsing and validation. -/
def compile_turns (raw : List (String × String)) : List Turn :=
  renumber 0 (valid_pairs raw)

theorem renumber_length : ∀ (ps : List (String × String)) (i : Nat),
    (renumber i ps).length = ps.length := by
  intro ps
  induction ps with
  | nil => intro i; rfl
  | cons p ps' ih =>
    intro i
    show (renumber (i + 1) ps').length + 1 = ps'.length + 1
    rw [ih]

theorem renumber_map_sequence : ∀ (ps : List (String × String)) (i : Nat),
    (renumber i ps).map Turn.sequence = List.range' i ps.length := by
  intro ps
  induction ps with
  | nil => intro i; rfl
  | cons p ps' ih =>
    intro i
    show i :: (renumber (i + 1) ps').map Turn.sequence = List.range' i (ps'.length + 1)
    rw [ih, List.range'_succ]

theorem renumber_mem : ∀ (ps : List (String × String)) (i : Nat) (t : Turn),
    t ∈ renumber i ps → ∃ p, p ∈ ps ∧ t.speaker = p.1 ∧ t.text = p.2 := by
  intro ps
  induction ps with
  | nil => intro i t ht; simp [renumber] at ht
  | cons p ps' ih =>
    intro i t ht
    rcases List.mem_cons.mp ht with h | h
    · exact ⟨p, by simp, by rw [h], by rw [h]⟩
    · rcases ih (i + 1) t h with ⟨q, hq, hs, htx⟩
      exact ⟨q, by simp [hq], hs, htx⟩

theorem valid_pairs_mem (raw : List (String × String)) :
    ∀ p ∈ valid_pairs raw, p.1 ∈ canonical_labels ∧ p.2 ≠ "" := by
  intro p hp
  rcases List.mem_filterMap.mp hp with ⟨a, _, hfa⟩
  cases hml : match_label a.1 with
  | none => rw [hml] at hfa; simp at hfa
  | some canon =>
    rw [hml] at hfa
    have hfa2 : (if a.2 = "" then none else some (canon, a.2)) = some p := hfa
    rcases Decidable.em (a.2 = "") with hemp | hne
    · rw [if_pos hemp] at hfa2; simp at hfa2
    · rw [if_neg hne] at hfa2
      have hpe : (canon, a.2) = p := by simpa using hfa2
      have hcanon : canon ∈ canonical_labels :=
        List.mem_of_find?_eq_some hml
      rw [← hpe]
      exact ⟨hcanon, hne⟩

/-- C7: every Turn produced by the (spec-modelled) dialogue-compile
validation has a speaker equal to one of the exactly two canonical labels
(unknown labels having been rejected), nonempty text (empty-text turns
having been dropped), and the sequence numbers form the gapless range
`0..count-1`. -/
theorem dialogue_turns_validated (raw : List (String × String)) :
    (∀ t ∈ compile_turns raw, t.speaker ∈ canonical_labels ∧ t.text ≠ "") ∧
      (compile_turns raw).map Turn.sequence = List.range (compile_turns raw).length := by
  constructor
  · intro t ht
    rcases renumber_mem (valid_pairs raw) 0 t ht with ⟨p, hp, hs, htx⟩
    have hv := valid_pairs_mem raw p hp
    rw [hs, htx]
    exact hv
  · show (renumber 0 (valid_pairs raw)).map Turn.sequence =
      List.range (renumber 0 (valid_pairs raw)).length
    rw [renumber_map_sequence, renumber_length, List.range_eq_range']

/-- A concrete raw parse with a lower-cased known label, an unknown label,
an empty-text turn, and an ordinary turn. -/
def sample_raw : List (String × String) :=
  [("speaker 1", "Hello there"), ("Narrator", "ignored"),
    ("SPEAKER 2", ""), ("Speaker 2", "Hi!")]

theorem dialogue_turns_validated_witness :
    (Turn.mk "Speaker 2" "Hi!" 1 ∈ compile_turns sample_raw) ∧
      (Turn.mk "Speaker 2" "Hi!" 1).speaker ∈ canonical_labels ∧
      (Turn.mk "Speaker 2" "Hi!" 1).text ≠ "" ∧
      (compile_turns sample_raw).map Turn.sequence =
        List.range (compile_turns sample_raw).length := by
  have h := dialogue_turns_validated sample_raw
  have hm : Turn.mk "Speaker 2" "Hi!" 1 ∈ compile_turns sample_raw := by decide
  exact ⟨hm, (h.1 _ hm).1, (h.1 _ hm).2, h.2⟩

end FeatherlessPodcast
